import Mathlib

/-!
# Verification of the git-backed content engine of opengist

This file gives a shallow embedding of `internal/models/gist.go` — the gist
model's git-facing operations (`Files`, `File`, `Log`, `NbCommits`,
`AddAndCommitFiles`, `InitRepository`) — and settles the specification claims
about them.

The `internal/git` package itself is not part of the analysed sources; its
operations are abstracted as a `GitBackend` record of result-producing
functions (for the read path) and as spec-modelled effect functions on an
explicit `World` state (for the edit-transaction path).  Every definition that
stands in for a missing `internal/git` function carries a doc comment starting
with `Modelled from the spec:`.
-/

set_option autoImplicit false

namespace Opengist

/-- Errors produced by a git subprocess invocation, mirroring Go's error
values: `exitError code` corresponds to an `*exec.ExitError` whose
`ExitCode()` is `code`; `otherError` is any other non-nil error. -/
inductive GitError where
  | exitError (code : Nat)
  | otherError (msg : String)
deriving DecidableEq

/-- The slice of `models.User` the git operations read (`gist.User.Username`). -/
structure User where
  Username : String
deriving DecidableEq

/-- The slice of `models.Gist` the git operations read (`gist.User`, `gist.Uuid`). -/
structure Gist where
  User : User
  Uuid : String
deriving DecidableEq

/-- `models.File` from gist.go lines 31-36: filename, optional old filename
(for renames), content, truncated flag. -/
structure File where
  Filename : String
  OldFilename : String
  Content : String
  Truncated : Bool
deriving DecidableEq

/-- The interface of the `internal/git` read operations invoked by gist.go,
abstracted as pure result-producing functions.  Each field mirrors the Go
signature: a value paired with a possibly-nil error. -/
structure GitBackend where
  getFilesOfRepository : String → String → String → List String × Option GitError
  getFileContent : String → String → String → String → Bool → String × Bool × Option GitError
  getLog : String → String → String → List String × Option GitError
  getNumberOfCommitsOfRepository : String → String → String × Option GitError

/-- Embeds the Go check
`exiterr, ok := err.(*exec.ExitError); ok && exiterr.ExitCode() == 128`:
true exactly when the error is an exit-status error with status 128. -/
def isExit128 : Option GitError → Bool
  | some (GitError.exitError c) => c == 128
  | _ => false

/-- `Gist.File` from gist.go lines 221-234: read one file's content at a
revision; an exit-128 subprocess error becomes `(none, none)`; otherwise a
`File` value is built from the returned content and truncated flag and
returned together with the (possibly nil) error. -/
def Gist.File (g : Gist) (b : GitBackend) (revision filename : String) (truncate : Bool) :
    Option File × Option GitError :=
  if isExit128 (b.getFileContent g.User.Username g.Uuid revision filename truncate).2.2 then
    (none, none)
  else
    (some { Filename := filename, OldFilename := "",
            Content := (b.getFileContent g.User.Username g.Uuid revision filename truncate).1,
            Truncated := (b.getFileContent g.User.Username g.Uuid revision filename truncate).2.1 },
     (b.getFileContent g.User.Username g.Uuid revision filename truncate).2.2)

/-- The loop of `Gist.Files` (gist.go lines 211-217): for each listed name
call `gist.File(revision, name, true)`; on a non-nil error return `(nil, err)`
discarding the accumulator; otherwise append the (possibly nil) file pointer
and continue.  The final return is `(files, nil)` since the loop error is
scoped to the loop body. -/
def Gist.filesLoop (g : Gist) (b : GitBackend) (revision : String) :
    List (Option Opengist.File) → List String → List (Option Opengist.File) × Option GitError
  | acc, [] => (acc, none)
  | acc, s :: rest =>
    match (Gist.File g b revision s true).2 with
    | some e => ([], some e)
    | none => Gist.filesLoop g b revision (acc ++ [(Gist.File g b revision s true).1]) rest

/-- `Gist.Files` from gist.go lines 198-219: list the tree at a revision.  An
exit-128 error from the listing subprocess becomes `(nil, nil)`; any other
error is returned as `(nil, err)`; on success each listed file is read through
`Gist.File`. -/
def Gist.Files (g : Gist) (b : GitBackend) (revision : String) :
    List (Option Opengist.File) × Option GitError :=
  match (b.getFilesOfRepository g.User.Username g.Uuid revision).2 with
  | some e => if isExit128 (some e) then ([], none) else ([], some e)
  | none => Gist.filesLoop g b revision [] (b.getFilesOfRepository g.User.Username g.Uuid revision).1

/-- `Gist.Log` from gist.go lines 236-240: invoke `git.GetLog`, discard its
first result, and return only the error. -/
def Gist.Log (g : Gist) (b : GitBackend) (skip : String) : Option GitError :=
  (b.getLog g.User.Username g.Uuid skip).2

/-- `Gist.NbCommits` from gist.go lines 242-244: returned verbatim from
`git.GetNumberOfCommitsOfRepository`. -/
def Gist.NbCommits (g : Gist) (b : GitBackend) : String × Option GitError :=
  b.getNumberOfCommitsOfRepository g.User.Username g.Uuid

/-- A bare repository's observable state for the read path: its commits,
newest first, each a (hash, tree) pair where a tree maps filenames to
contents. -/
structure RepoModel where
  commits : List (String × List (String × String))
deriving DecidableEq

/-- Modelled from the spec: revision resolution by the underlying toolchain
(`internal/git` is not under the analysed sources).  A revision is any
git-recognised identifier — symbolic `HEAD` resolves to the newest commit,
a hash resolves to the matching commit — and may be invalid, in which case
resolution fails. -/
def resolveRev (r : RepoModel) (rev : String) : Option (List (String × String)) :=
  if rev = "HEAD" then r.commits.head?.map (fun c => c.2)
  else (r.commits.find? (fun c => c.1 == rev)).map (fun c => c.2)

/-- Modelled from the spec: the truncation rule of `git.GetFileContent` (not
under the analysed sources) — when `truncate` is requested and the stored
content exceeds the configured byte cap, only the first `cap` bytes are
returned and the truncated flag is set; otherwise the full content is
returned untruncated. -/
def gitTruncate (cap : Nat) (stored : String) (truncate : Bool) : String × Bool :=
  if truncate = true ∧ cap < stored.data.length then
    (String.mk (stored.data.take cap), true)
  else
    (stored, false)

/-- Modelled from the spec: the `internal/git` read subprocesses (not under
the analysed sources) over a store of repositories keyed by (owner, gist id).
A subprocess run against an unresolvable revision or a missing path exits
with status 128, the git convention for bad revision/path. -/
def backendOf (store : String → String → RepoModel) (cap : Nat) : GitBackend where
  getFilesOfRepository := fun user uuid rev =>
    match resolveRev (store user uuid) rev with
    | none => ([], some (GitError.exitError 128))
    | some tree => (tree.map (fun p => p.1), none)
  getFileContent := fun user uuid rev filename truncate =>
    match resolveRev (store user uuid) rev with
    | none => ("", false, some (GitError.exitError 128))
    | some tree =>
      match tree.lookup filename with
      | none => ("", false, some (GitError.exitError 128))
      | some stored => ((gitTruncate cap stored truncate).1, (gitTruncate cap stored truncate).2, none)
  getLog := fun _ _ _ => ([], none)
  getNumberOfCommitsOfRepository := fun user uuid =>
    (toString (store user uuid).commits.length, none)

/-- Modelled from the spec: `git.InitRepository` (not under the analysed
sources) creates a new empty bare repository — no commits — at the path
resolved from (owner, gist id), as invoked by `Gist.InitRepository`
(gist.go lines 190-192). -/
def initRepository (store : String → String → RepoModel) (user uuid : String) :
    String → String → RepoModel :=
  fun u g => if u = user ∧ g = uuid then { commits := [] } else store u g

/-- A temporary working clone's state: the commit history it carries (trees,
newest first), its checked-out working tree, and its staging index. -/
structure Clone where
  history : List (List (String × String))
  workTree : List (String × String)
  index : List (String × String)
deriving DecidableEq

/-- The state an edit transaction acts on: the canonical bare repository's
commit history (trees, newest first) and the temporary working clone keyed by
the transaction's session id (`none` when no clone directory exists). -/
structure World where
  canonical : List (List (String × String))
  tmp : Option Clone
deriving DecidableEq

/-- Update an association list at a key, appending when absent. -/
def setAssoc (l : List (String × String)) (k v : String) : List (String × String) :=
  if l.any (fun p => p.1 == k) then l.map (fun p => if p.1 == k then (k, v) else p)
  else l ++ [(k, v)]

/-- Modelled from the spec: `git.CloneTmp` (not under the analysed sources) —
step 1 of the edit transaction clones the canonical repository into a scratch
working directory keyed by the session id, replacing any prior clone under
that key. -/
def cloneTmpEff (w : World) : World :=
  { canonical := w.canonical,
    tmp := some { history := w.canonical,
                  workTree := w.canonical.head?.getD [],
                  index := w.canonical.head?.getD [] } }

/-- Modelled from the spec: `git.SetFileContent` (not under the analysed
sources) — step 2 writes the given content to the path named by the given
filename inside the temporary clone's working tree. -/
def setFileContentEff (filename content : String) (w : World) : World :=
  match w.tmp with
  | none => w
  | some c => { w with tmp := some { c with workTree := setAssoc c.workTree filename content } }

/-- Modelled from the spec: `git.AddAll` (not under the analysed sources) —
step 3 stages all changes of the clone's working tree in one operation. -/
def addAllEff (w : World) : World :=
  match w.tmp with
  | none => w
  | some c => { w with tmp := some { c with index := c.workTree } }

/-- Modelled from the spec: `git.Commit` (not under the analysed sources) —
step 4 creates a single commit covering all staged changes, inside the
temporary clone. -/
def commitEff (w : World) : World :=
  match w.tmp with
  | none => w
  | some c => { w with tmp := some { c with history := c.index :: c.history } }

/-- Modelled from the spec: `git.Push` (not under the analysed sources) —
step 5 pushes the clone's branch to the canonical repository and, the
transaction being over, removes the temporary clone directory. -/
def pushEff (w : World) : World :=
  match w.tmp with
  | none => w
  | some c => { canonical := c.history, tmp := none }

/-- One git subprocess invocation made by `Gist.AddAndCommitFiles`, in the
order the Go code issues them. -/
inductive GitCall where
  | cloneTmp
  | setFileContent (filename content : String)
  | addAll
  | commit
  | push
deriving DecidableEq

/-- The write loop of `Gist.AddAndCommitFiles` (gist.go lines 251-255): for
each supplied file, invoke `git.SetFileContent` with that file's `Filename`
and `Content`; a failing invocation aborts the loop.  The schedule `sched`
says whether the k-th subprocess invocation of the transaction fails, and
with which error; a failed invocation has no effect on the state.  Returns
the state, the loop's error, the next invocation index and the trace of
invocations attempted. -/
def writeLoop (sched : Nat → Option GitError) :
    Nat → List File → World → World × Option GitError × Nat × List GitCall
  | k, [], w => (w, none, k, [])
  | k, f :: rest, w =>
    match sched k with
    | some e => (w, some e, k + 1, [GitCall.setFileContent f.Filename f.Content])
    | none =>
      let r := writeLoop sched (k + 1) rest (setFileContentEff f.Filename f.Content w)
      (r.1, r.2.1, r.2.2.1, GitCall.setFileContent f.Filename f.Content :: r.2.2.2)

/-- The tail of `Gist.AddAndCommitFiles` after the write loop (gist.go lines
257-265): `git.AddAll`, then `git.Commit`, then `git.Push`, each aborting the
transaction on error. -/
def afterWrite (sched : Nat → Option GitError) (k : Nat) (tr : List GitCall) (w : World) :
    World × Option GitError × List GitCall :=
  match sched k with
  | some e => (w, some e, tr ++ [GitCall.addAll])
  | none =>
    match sched (k + 1) with
    | some e => (addAllEff w, some e, tr ++ [GitCall.addAll, GitCall.commit])
    | none =>
      match sched (k + 2) with
      | some e => (commitEff (addAllEff w), some e, tr ++ [GitCall.addAll, GitCall.commit, GitCall.push])
      | none => (pushEff (commitEff (addAllEff w)), none, tr ++ [GitCall.addAll, GitCall.commit, GitCall.push])

/-- `Gist.AddAndCommitFiles` from gist.go lines 246-266: clone the canonical
repository into a temporary clone, write every supplied file, stage all
changes, commit, push; each step returns early on error.  Parameterised by a
failure schedule for the subprocess invocations; also returns the trace of
invocations attempted. -/
def AddAndCommitFiles (sched : Nat → Option GitError) (files : List File) (w : World) :
    World × Option GitError × List GitCall :=
  match sched 0 with
  | some e => (w, some e, [GitCall.cloneTmp])
  | none =>
    match (writeLoop sched 1 files (cloneTmpEff w)).2.1 with
    | some e =>
      ((writeLoop sched 1 files (cloneTmpEff w)).1, some e,
        GitCall.cloneTmp :: (writeLoop sched 1 files (cloneTmpEff w)).2.2.2)
    | none =>
      ((afterWrite sched (writeLoop sched 1 files (cloneTmpEff w)).2.2.1
          (writeLoop sched 1 files (cloneTmpEff w)).2.2.2
          (writeLoop sched 1 files (cloneTmpEff w)).1).1,
       (afterWrite sched (writeLoop sched 1 files (cloneTmpEff w)).2.2.1
          (writeLoop sched 1 files (cloneTmpEff w)).2.2.2
          (writeLoop sched 1 files (cloneTmpEff w)).1).2.1,
       GitCall.cloneTmp ::
         (afterWrite sched (writeLoop sched 1 files (cloneTmpEff w)).2.2.1
            (writeLoop sched 1 files (cloneTmpEff w)).2.2.2
            (writeLoop sched 1 files (cloneTmpEff w)).1).2.2)

/-- The full, in-order invocation sequence of a successful edit transaction:
one clone, one write per supplied file, one staging of everything, one
commit, one push. -/
def fullCalls (files : List File) : List GitCall :=
  GitCall.cloneTmp ::
    (files.map (fun f => GitCall.setFileContent f.Filename f.Content)
      ++ [GitCall.addAll, GitCall.commit, GitCall.push])

/-- Embeds the validator tags on `models.File` (gist.go lines 31-36):
`Filename` and `OldFilename` carry `excludes=\x2f,excludes=\x5c,max=50`
(must not contain '/' nor '\', at most 50 characters) and `Content` carries
`required` (must be non-empty), with the standard semantics of those
validation tags on string fields. -/
def FileValid (f : File) : Prop :=
  f.Filename.data.contains '/' = false ∧ f.Filename.data.contains '\\' = false
    ∧ f.Filename.data.length ≤ 50
    ∧ f.OldFilename.data.contains '/' = false ∧ f.OldFilename.data.contains '\\' = false
    ∧ f.OldFilename.data.length ≤ 50
    ∧ f.Content ≠ ""

instance (f : File) : Decidable (FileValid f) := by
  unfold FileValid; infer_instance

/-- Split a character sequence into path components at '/' and '\'
separators (both are path separators on the systems the program targets). -/
def splitSep : List Char → List (List Char)
  | [] => [[]]
  | c :: rest =>
    if c = '/' ∨ c = '\\' then [] :: splitSep rest
    else
      match splitSep rest with
      | [] => [[c]]
      | comp :: comps => (c :: comp) :: comps

/-- One step of lexical path normalisation: empty and `.` components are
dropped, `..` removes the last component, everything else is kept. -/
def normStep (acc : List (List Char)) (comp : List Char) : List (List Char) :=
  if comp = [] ∨ comp = ['.'] then acc
  else if comp = ['.', '.'] then acc.dropLast
  else acc ++ [comp]

/-- Lexical normalisation of a component path. -/
def normalizePath (comps : List (List Char)) : List (List Char) :=
  comps.foldl normStep []

/-- The path a filename names, joined under a directory, stays inside that
directory: the normalised joined path extends the directory's components. -/
def ResolvesInside (dir : List (List Char)) (filename : String) : Prop :=
  ∃ t, dir ++ t = normalizePath (dir ++ splitSep filename.data)

/-- A backend whose log and commit-count subprocesses exit with status 128
(the bad-revision convention), as happens on a repository with no commits. -/
def exBackend128 : GitBackend where
  getFilesOfRepository := fun _ _ _ => ([], none)
  getFileContent := fun _ _ _ _ _ => ("", false, none)
  getLog := fun _ _ _ => (["raw log"], some (GitError.exitError 128))
  getNumberOfCommitsOfRepository := fun _ _ => ("", some (GitError.exitError 128))

/-- A backend whose listing and content subprocesses exit with status 128. -/
def exBackendNotFound : GitBackend where
  getFilesOfRepository := fun _ _ _ => ([], some (GitError.exitError 128))
  getFileContent := fun _ _ _ _ _ => ("", false, some (GitError.exitError 128))
  getLog := fun _ _ _ => ([], none)
  getNumberOfCommitsOfRepository := fun _ _ => ("0", none)

/-- A backend whose log subprocess succeeds with one log text. -/
def exBackendLogA : GitBackend where
  getFilesOfRepository := fun _ _ _ => ([], none)
  getFileContent := fun _ _ _ _ _ => ("", false, none)
  getLog := fun _ _ _ => (["commit aaa"], none)
  getNumberOfCommitsOfRepository := fun _ _ => ("1", none)

/-- A backend identical to `exBackendLogA` except for the log text. -/
def exBackendLogB : GitBackend where
  getFilesOfRepository := fun _ _ _ => ([], none)
  getFileContent := fun _ _ _ _ _ => ("", false, none)
  getLog := fun _ _ _ => (["commit bbb"], none)
  getNumberOfCommitsOfRepository := fun _ _ => ("1", none)

/-- A backend whose content subprocess fails with a non-exit-status error. -/
def exBackendIOFail : GitBackend where
  getFilesOfRepository := fun _ _ _ => ([], none)
  getFileContent := fun _ _ _ _ _ => ("", false, some (GitError.otherError "io failure"))
  getLog := fun _ _ _ => ([], none)
  getNumberOfCommitsOfRepository := fun _ _ => ("0", none)

/-! ## Helper lemmas -/

theorem canonical_setFileContentEff (f c : String) (w : World) :
    (setFileContentEff f c w).canonical = w.canonical := by
  rcases w with ⟨can, tmp⟩
  cases tmp <;> rfl

theorem canonical_addAllEff (w : World) : (addAllEff w).canonical = w.canonical := by
  rcases w with ⟨can, tmp⟩
  cases tmp <;> rfl

theorem canonical_commitEff (w : World) : (commitEff w).canonical = w.canonical := by
  rcases w with ⟨can, tmp⟩
  cases tmp <;> rfl

theorem tmp_pushEff (w : World) : (pushEff w).tmp = none := by
  rcases w with ⟨can, tmp⟩
  cases tmp <;> rfl

theorem writeLoop_canonical (sched : Nat → Option GitError) :
    ∀ (files : List File) (k : Nat) (w : World),
      (writeLoop sched k files w).1.canonical = w.canonical := by
  intro files
  induction files with
  | nil => intro k w; rfl
  | cons f rest ih =>
    intro k w
    unfold writeLoop
    cases h0 : sched k with
    | some e => rfl
    | none =>
      simpa [canonical_setFileContentEff] using
        ih (k + 1) (setFileContentEff f.Filename f.Content w)

theorem writeLoop_trace (sched : Nat → Option GitError) :
    ∀ (files : List File) (k : Nat) (w : World),
      (∃ rest, (writeLoop sched k files w).2.2.2 ++ rest
          = files.map (fun f => GitCall.setFileContent f.Filename f.Content))
      ∧ ((writeLoop sched k files w).2.1 = none →
          (writeLoop sched k files w).2.2.2
            = files.map (fun f => GitCall.setFileContent f.Filename f.Content)) := by
  intro files
  induction files with
  | nil => intro k w; exact ⟨⟨[], rfl⟩, fun _ => rfl⟩
  | cons f rest ih =>
    intro k w
    unfold writeLoop
    cases h0 : sched k with
    | some e =>
      refine ⟨⟨rest.map (fun f => GitCall.setFileContent f.Filename f.Content), by simp⟩, ?_⟩
      intro hc
      simp at hc
    | none =>
      obtain ⟨⟨t, ht⟩, hsucc⟩ := ih (k + 1) (setFileContentEff f.Filename f.Content w)
      constructor
      · refine ⟨t, ?_⟩
        simp only [List.map, List.cons_append]
        rw [ht]
      · intro hc
        simp only [List.map]
        rw [hsucc (by simpa using hc)]

theorem afterWrite_canonical (sched : Nat → Option GitError) (k : Nat) (tr : List GitCall)
    (w : World) (h : (afterWrite sched k tr w).2.1 ≠ none) :
    (afterWrite sched k tr w).1.canonical = w.canonical := by
  unfold afterWrite
  cases h0 : sched k with
  | some e => rfl
  | none =>
    cases h1 : sched (k + 1) with
    | some e => simp [canonical_addAllEff]
    | none =>
      cases h2 : sched (k + 2) with
      | some e => simp [canonical_commitEff, canonical_addAllEff]
      | none =>
        exfalso
        apply h
        unfold afterWrite
        rw [h0, h1, h2]

theorem afterWrite_trace (sched : Nat → Option GitError) (k : Nat) (tr : List GitCall)
    (w : World) :
    (∃ rest, (afterWrite sched k tr w).2.2 ++ rest
        = tr ++ [GitCall.addAll, GitCall.commit, GitCall.push])
    ∧ ((afterWrite sched k tr w).2.1 = none →
        (afterWrite sched k tr w).2.2 = tr ++ [GitCall.addAll, GitCall.commit, GitCall.push]) := by
  unfold afterWrite
  cases h0 : sched k with
  | some e =>
    refine ⟨⟨[GitCall.commit, GitCall.push], by simp⟩, ?_⟩
    intro hc
    simp at hc
  | none =>
    cases h1 : sched (k + 1) with
    | some e =>
      refine ⟨⟨[GitCall.push], by simp⟩, ?_⟩
      intro hc
      simp at hc
    | none =>
      cases h2 : sched (k + 2) with
      | some e =>
        refine ⟨⟨[], by simp⟩, ?_⟩
        intro hc
        simp at hc
      | none => exact ⟨⟨[], by simp⟩, fun _ => rfl⟩

theorem afterWrite_success_tmp (sched : Nat → Option GitError) (k : Nat) (tr : List GitCall)
    (w : World) (h : (afterWrite sched k tr w).2.1 = none) :
    (afterWrite sched k tr w).1.tmp = none := by
  unfold afterWrite at h ⊢
  cases h0 : sched k with
  | some e => simp [h0] at h
  | none =>
    cases h1 : sched (k + 1) with
    | some e => simp [h0, h1] at h
    | none =>
      cases h2 : sched (k + 2) with
      | some e => simp [h0, h1, h2] at h
      | none => simp [h0, h1, h2, tmp_pushEff]

theorem AddAndCommitFiles_cases (sched : Nat → Option GitError) (files : List File) (w : World) :
    (AddAndCommitFiles sched files w).1.canonical = w.canonical
    ∨ (AddAndCommitFiles sched files w).2.1 = none := by
  unfold AddAndCommitFiles
  cases h0 : sched 0 with
  | some e => exact Or.inl rfl
  | none =>
    have hcan := writeLoop_canonical sched files 1 (cloneTmpEff w)
    cases hr : (writeLoop sched 1 files (cloneTmpEff w)).2.1 with
    | some e => exact Or.inl hcan
    | none =>
      have ha := afterWrite_canonical sched (writeLoop sched 1 files (cloneTmpEff w)).2.2.1
        (writeLoop sched 1 files (cloneTmpEff w)).2.2.2 (writeLoop sched 1 files (cloneTmpEff w)).1
      cases hf : (afterWrite sched (writeLoop sched 1 files (cloneTmpEff w)).2.2.1
          (writeLoop sched 1 files (cloneTmpEff w)).2.2.2
          (writeLoop sched 1 files (cloneTmpEff w)).1).2.1 with
      | some e => exact Or.inl ((ha (by simp [hf])).trans hcan)
      | none => exact Or.inr rfl

theorem writeLoop_oldFilename (sched : Nat → Option GitError) (s : String) :
    ∀ (files : List File) (k : Nat) (w : World),
      writeLoop sched k (files.map (fun f => { f with OldFilename := s })) w
        = writeLoop sched k files w := by
  intro files
  induction files with
  | nil => intro k w; rfl
  | cons f rest ih =>
    intro k w
    simp only [List.map]
    unfold writeLoop
    cases h0 : sched k with
    | some e => rfl
    | none => simp [ih]

theorem splitSep_no_sep :
    ∀ l : List Char, l.contains '/' = false → l.contains '\\' = false → splitSep l = [l] := by
  intro l
  induction l with
  | nil => intro _ _; rfl
  | cons c rest ih =>
    intro h1 h2
    simp only [List.contains_cons, Bool.or_eq_false_iff] at h1 h2
    have hc : ¬(c = '/' ∨ c = '\\') := by
      rintro (rfl | rfl)
      · simp at h1
      · simp at h2
    unfold splitSep
    rw [if_neg hc, ih h1.2 h2.2]

/-! ## Claim theorems -/

/-- C1 (counterexample): the claim says every read operation — including
`Log` and `NbCommits` — translates an exit-status-128 subprocess error into
the not-found outcome (nil result, nil error).  Against a backend whose log
and commit-count subprocesses exit with status 128, `Gist.Log` and
`Gist.NbCommits` return that raw subprocess error, not nil. -/
theorem C1_log_propagates_exit128_counterexample :
    Gist.Log ⟨⟨"u"⟩, "g"⟩ exBackend128 "0" = some (GitError.exitError 128)
    ∧ Gist.NbCommits ⟨⟨"u"⟩, "g"⟩ exBackend128 = ("", some (GitError.exitError 128))
    ∧ some (GitError.exitError 128) ≠ (none : Option GitError) :=
  ⟨rfl, rfl, by decide⟩

/-- C1 (amended): of the four read operations, `Files` (listFiles) and `File`
(readFile) translate an exit-status-128 subprocess error into the explicit
not-found outcome (nil result, nil error); `Log` and `NbCommits` perform no
translation and return the underlying subprocess result unchanged. -/
theorem C1_amended_only_files_and_file_translate_exit128 (g : Gist) (b : GitBackend)
    (revision filename skip : String) (truncate : Bool) (e : GitError)
    (h128 : isExit128 (some e) = true) :
    ((b.getFilesOfRepository g.User.Username g.Uuid revision).2 = some e →
        Gist.Files g b revision = ([], none))
    ∧ ((b.getFileContent g.User.Username g.Uuid revision filename truncate).2.2 = some e →
        Gist.File g b revision filename truncate = (none, none))
    ∧ Gist.Log g b skip = (b.getLog g.User.Username g.Uuid skip).2
    ∧ Gist.NbCommits g b = b.getNumberOfCommitsOfRepository g.User.Username g.Uuid := by
  refine ⟨?_, ?_, rfl, rfl⟩
  · intro h
    unfold Gist.Files
    rw [h]
    simp [h128]
  · intro h
    unfold Gist.File
    rw [h]
    simp [h128]

/-- C1 (witness for the amended theorem): against a backend whose listing and
content subprocesses exit with status 128, `Files` and `File` both return the
not-found outcome. -/
theorem C1_amended_witness :
    Gist.Files ⟨⟨"u"⟩, "g"⟩ exBackendNotFound "HEAD" = ([], none)
    ∧ Gist.File ⟨⟨"u"⟩, "g"⟩ exBackendNotFound "HEAD" "a.txt" true = (none, none) := by
  have h := C1_amended_only_files_and_file_translate_exit128 ⟨⟨"u"⟩, "g"⟩ exBackendNotFound
    "HEAD" "a.txt" "0" true (GitError.exitError 128) (by decide)
  exact ⟨h.1 rfl, h.2.1 rfl⟩

/-- C2: for every edit transaction, if the transaction fails — at any step —
the canonical repository's state is unchanged: only the final push step can
modify it. -/
theorem C2_canonical_untouched_on_failure (sched : Nat → Option GitError) (files : List File)
    (w : World) (h : (AddAndCommitFiles sched files w).2.1 ≠ none) :
    (AddAndCommitFiles sched files w).1.canonical = w.canonical := by
  rcases AddAndCommitFiles_cases sched files w with hc | hs
  · exact hc
  · exact absurd hs h

/-- C2 (witness): a transaction whose clone step fails leaves the canonical
repository exactly as it was. -/
theorem C2_witness :
    (AddAndCommitFiles (fun _ => some (GitError.otherError "clone failed")) []
        ⟨[[("a.txt", "x")]], none⟩).2.1 ≠ none
    ∧ (AddAndCommitFiles (fun _ => some (GitError.otherError "clone failed")) []
        ⟨[[("a.txt", "x")]], none⟩).1.canonical = [[("a.txt", "x")]] :=
  ⟨by decide, C2_canonical_untouched_on_failure _ _ _ (by decide)⟩

/-- C3 (counterexample): the claim says the temporary clone directory is
deleted on every exit path.  In a transaction over one file whose third
subprocess invocation (the staging step `git.AddAll`) fails, the transaction
returns an error and the temporary clone is still present. -/
theorem C3_failed_staging_leaves_tmp_clone_counterexample :
    (AddAndCommitFiles (fun k => if k = 2 then some (GitError.otherError "stage failed") else none)
        [⟨"b.txt", "a.txt", "new", false⟩] ⟨[[("a.txt", "old")]], none⟩).2.1 ≠ none
    ∧ (AddAndCommitFiles (fun k => if k = 2 then some (GitError.otherError "stage failed") else none)
        [⟨"b.txt", "a.txt", "new", false⟩] ⟨[[("a.txt", "old")]], none⟩).1.tmp ≠ none :=
  ⟨by decide, by decide⟩

/-- C3 (amended): the temporary clone is deleted only on the success path —
when every step up to and including the push succeeds; a transaction that
fails at any step returns with the temporary clone directory still in
place. -/
theorem C3_amended_tmp_deleted_only_on_success (sched : Nat → Option GitError)
    (files : List File) (w : World) (h : (AddAndCommitFiles sched files w).2.1 = none) :
    (AddAndCommitFiles sched files w).1.tmp = none := by
  unfold AddAndCommitFiles at h ⊢
  cases h0 : sched 0 with
  | some e => rw [h0] at h; simp at h
  | none =>
    rw [h0] at h
    cases hr : (writeLoop sched 1 files (cloneTmpEff w)).2.1 with
    | some e => rw [hr] at h; simp at h
    | none =>
      rw [hr] at h
      have h3 : (afterWrite sched (writeLoop sched 1 files (cloneTmpEff w)).2.2.1
          (writeLoop sched 1 files (cloneTmpEff w)).2.2.2
          (writeLoop sched 1 files (cloneTmpEff w)).1).2.1 = none := by
        simpa using h
      simpa using afterWrite_success_tmp sched _ _ _ h3

/-- C3 (witness for the amended theorem): a fully successful transaction ends
with no temporary clone directory. -/
theorem C3_amended_witness :
    (AddAndCommitFiles (fun _ => none) [⟨"a.txt", "", "hello", false⟩] ⟨[], none⟩).2.1 = none
    ∧ (AddAndCommitFiles (fun _ => none) [⟨"a.txt", "", "hello", false⟩] ⟨[], none⟩).1.tmp
        = none :=
  ⟨by decide, C3_amended_tmp_deleted_only_on_success _ _ _ (by decide)⟩

/-- C4: every edit transaction issues its subprocess invocations as an
initial segment of the fixed sequence clone, one write per supplied file (in
order), one staging of everything, one commit, one push — so a failure at any
step executes no later step — and a successful transaction issues exactly
that full sequence. -/
theorem C4_fixed_order_of_steps (sched : Nat → Option GitError) (files : List File)
    (w : World) :
    (∃ rest, (AddAndCommitFiles sched files w).2.2 ++ rest = fullCalls files)
    ∧ ((AddAndCommitFiles sched files w).2.1 = none →
        (AddAndCommitFiles sched files w).2.2 = fullCalls files) := by
  unfold AddAndCommitFiles fullCalls
  cases h0 : sched 0 with
  | some e =>
    refine ⟨⟨files.map (fun f => GitCall.setFileContent f.Filename f.Content)
      ++ [GitCall.addAll, GitCall.commit, GitCall.push], by simp⟩, ?_⟩
    intro hc
    simp at hc
  | none =>
    obtain ⟨⟨t, ht⟩, hsucc⟩ := writeLoop_trace sched files 1 (cloneTmpEff w)
    cases hr : (writeLoop sched 1 files (cloneTmpEff w)).2.1 with
    | some e =>
      constructor
      · refine ⟨t ++ [GitCall.addAll, GitCall.commit, GitCall.push], ?_⟩
        simp only [List.cons_append, List.cons.injEq, true_and]
        rw [← List.append_assoc, ht]
      · intro hc
        simp at hc
    | none =>
      have htr := hsucc hr
      obtain ⟨⟨ta, hta⟩, hsa⟩ := afterWrite_trace sched
        (writeLoop sched 1 files (cloneTmpEff w)).2.2.1
        (writeLoop sched 1 files (cloneTmpEff w)).2.2.2
        (writeLoop sched 1 files (cloneTmpEff w)).1
      constructor
      · refine ⟨ta, ?_⟩
        simp only [List.cons_append, List.cons.injEq, true_and]
        rw [hta, htr]
      · intro hc
        have h3 : (afterWrite sched (writeLoop sched 1 files (cloneTmpEff w)).2.2.1
            (writeLoop sched 1 files (cloneTmpEff w)).2.2.2
            (writeLoop sched 1 files (cloneTmpEff w)).1).2.1 = none := by
          simpa using hc
        simp only [List.cons.injEq, true_and]
        rw [hsa h3, htr]

/-- C4 (witness): a successful one-file transaction issues exactly the full
sequence, and a transaction failing at the write step has issued an initial
segment of it. -/
theorem C4_witness :
    ((AddAndCommitFiles (fun _ => none) [⟨"a.txt", "", "hi", false⟩] ⟨[], none⟩).2.2
        = fullCalls [⟨"a.txt", "", "hi", false⟩])
    ∧ ∃ rest, (AddAndCommitFiles (fun k => if k = 1 then some (GitError.otherError "w") else none)
        [⟨"a.txt", "", "hi", false⟩] ⟨[], none⟩).2.2 ++ rest
          = fullCalls [⟨"a.txt", "", "hi", false⟩] :=
  ⟨(C4_fixed_order_of_steps (fun _ => none) [⟨"a.txt", "", "hi", false⟩] ⟨[], none⟩).2 (by decide),
   (C4_fixed_order_of_steps (fun k => if k = 1 then some (GitError.otherError "w") else none)
      [⟨"a.txt", "", "hi", false⟩] ⟨[], none⟩).1⟩

/-- C5: for every file that exists at an existing revision, reading it
through `Gist.File` with `truncate = true` when the stored content exceeds
the configured byte cap returns exactly the first `cap` bytes with the
truncated flag set, and reading with `truncate = false` returns the full
content with the flag clear. -/
theorem C5_truncation (store : String → String → RepoModel)
    (user uuid revision filename stored : String) (tree : List (String × String)) (cap : Nat)
    (h1 : resolveRev (store user uuid) revision = some tree)
    (h2 : tree.lookup filename = some stored) :
    (cap < stored.data.length →
      Gist.File ⟨⟨user⟩, uuid⟩ (backendOf store cap) revision filename true
          = (some ⟨filename, "", String.mk (stored.data.take cap), true⟩, none)
        ∧ (stored.data.take cap).length = cap)
    ∧ Gist.File ⟨⟨user⟩, uuid⟩ (backendOf store cap) revision filename false
        = (some ⟨filename, "", stored, false⟩, none) := by
  have hget : ∀ tr : Bool, (backendOf store cap).getFileContent user uuid revision filename tr
      = ((gitTruncate cap stored tr).1, (gitTruncate cap stored tr).2, none) := by
    intro tr
    unfold backendOf
    simp [h1, h2]
  constructor
  · intro hlt
    have htr : gitTruncate cap stored true = (String.mk (stored.data.take cap), true) := by
      unfold gitTruncate
      rw [if_pos ⟨rfl, hlt⟩]
    constructor
    · unfold Gist.File
      simp [hget, htr, isExit128]
    · simp only [List.length_take]
      omega
  · have htr : gitTruncate cap stored false = (stored, false) := by
      unfold gitTruncate
      simp
    unfold Gist.File
    simp [hget, htr, isExit128]

/-- C5 (witness): a 5-byte file read with cap 3 and truncation requested
yields its first 3 bytes and the truncated flag; without truncation it yields
the full content. -/
theorem C5_truncation_witness :
    Gist.File ⟨⟨"u"⟩, "g"⟩
        (backendOf (fun _ _ => ⟨[("h1", [("a.txt", "hello")])]⟩) 3) "h1" "a.txt" true
      = (some ⟨"a.txt", "", "hel", true⟩, none)
    ∧ Gist.File ⟨⟨"u"⟩, "g"⟩
        (backendOf (fun _ _ => ⟨[("h1", [("a.txt", "hello")])]⟩) 3) "h1" "a.txt" false
      = (some ⟨"a.txt", "", "hello", false⟩, none) := by
  have h := C5_truncation (fun _ _ => ⟨[("h1", [("a.txt", "hello")])]⟩)
    "u" "g" "h1" "a.txt" "hello" [("a.txt", "hello")] 3 (by decide) (by decide)
  exact ⟨(h.1 (by decide)).1, h.2⟩

/-- C6 (counterexample): the claim says a file entry carrying both an old and
a new filename is renamed — after the transaction the file no longer exists
under the old filename.  A successful transaction over the entry
(Filename "b.txt", OldFilename "a.txt") leaves the canonical HEAD tree still
containing "a.txt" (with its old content) alongside the new "b.txt". -/
theorem C6_old_filename_still_present_counterexample :
    (AddAndCommitFiles (fun _ => none) [⟨"b.txt", "a.txt", "new", false⟩]
        ⟨[[("a.txt", "old")]], none⟩).2.1 = none
    ∧ ((AddAndCommitFiles (fun _ => none) [⟨"b.txt", "a.txt", "new", false⟩]
        ⟨[[("a.txt", "old")]], none⟩).1.canonical.head?.getD []).lookup "a.txt" = some "old"
    ∧ ((AddAndCommitFiles (fun _ => none) [⟨"b.txt", "a.txt", "new", false⟩]
        ⟨[[("a.txt", "old")]], none⟩).1.canonical.head?.getD []).lookup "b.txt" = some "new" :=
  ⟨by decide, by decide, by decide⟩

/-- C6 (amended): `AddAndCommitFiles` ignores `OldFilename` entirely — it
writes each entry's content under `Filename` only and performs no rename, so
the transaction's outcome is identical whatever the `OldFilename` fields
hold, and a file previously present under the old name remains in the
canonical repository after the push. -/
theorem C6_amended_oldFilename_ignored (sched : Nat → Option GitError) (s : String)
    (files : List File) (w : World) :
    AddAndCommitFiles sched (files.map (fun f => { f with OldFilename := s })) w
      = AddAndCommitFiles sched files w := by
  unfold AddAndCommitFiles
  rw [writeLoop_oldFilename]

/-- C7: initialising a repository and immediately listing its files at
revision HEAD yields the empty not-found outcome (nil list, nil error) — the
fresh bare repository has no commits, so HEAD is unresolvable, the listing
subprocess exits with status 128, and `Gist.Files` translates that to
(nil, nil). -/
theorem C7_init_then_files_head_is_empty (store : String → String → RepoModel)
    (user uuid : String) (cap : Nat) :
    Gist.Files ⟨⟨user⟩, uuid⟩ (backendOf (initRepository store user uuid) cap) "HEAD"
      = ([], none) := by
  have hrepo : initRepository store user uuid user uuid = { commits := [] } := by
    unfold initRepository
    rw [if_pos ⟨rfl, rfl⟩]
  unfold Gist.Files
  simp [backendOf, hrepo, resolveRev, isExit128]

/-- C8 (counterexample): the claim says the log operation returns the commit
log content to its caller.  Two backends whose log subprocesses return
different log content produce identical `Gist.Log` results — the outcome
carries no log content at all. -/
theorem C8_log_discards_content_counterexample :
    (exBackendLogA.getLog "u" "g" "0").1 ≠ (exBackendLogB.getLog "u" "g" "0").1
    ∧ Gist.Log ⟨⟨"u"⟩, "g"⟩ exBackendLogA "0" = Gist.Log ⟨⟨"u"⟩, "g"⟩ exBackendLogB "0" :=
  ⟨by decide, rfl⟩

/-- C8 (amended): `Gist.Log` invokes the underlying log subprocess with the
given skip but discards the returned log content, returning only the
success/failure indication — its result depends only on the error component
of the subprocess result. -/
theorem C8_amended_log_returns_only_error_status (g : Gist) (b b' : GitBackend) (skip : String)
    (h : (b.getLog g.User.Username g.Uuid skip).2 = (b'.getLog g.User.Username g.Uuid skip).2) :
    Gist.Log g b skip = Gist.Log g b' skip := h

/-- C8 (witness for the amended theorem): the two fixture backends agree on
the error component, hence on the `Log` result. -/
theorem C8_amended_witness :
    Gist.Log ⟨⟨"u"⟩, "g"⟩ exBackendLogA "0" = Gist.Log ⟨⟨"u"⟩, "g"⟩ exBackendLogB "0" :=
  C8_amended_log_returns_only_error_status ⟨⟨"u"⟩, "g"⟩ exBackendLogA exBackendLogB "0" rfl

/-- C9: when the content subprocess fails with anything other than an
exit-status-128 error, `Gist.File` returns a non-nil `File` (carrying the
requested filename and the produced content and truncated flag) together
with that non-nil error; the returned file pointer and error are both nil
only in the exit-128 case; and on success the file is non-nil with a nil
error. -/
theorem C9_file_error_contract (g : Gist) (b : GitBackend) (revision filename : String)
    (truncate : Bool) :
    (∀ e : GitError,
      (b.getFileContent g.User.Username g.Uuid revision filename truncate).2.2 = some e →
      isExit128 (some e) = false →
      Gist.File g b revision filename truncate
        = (some { Filename := filename, OldFilename := "",
                  Content := (b.getFileContent g.User.Username g.Uuid revision filename truncate).1,
                  Truncated := (b.getFileContent g.User.Username g.Uuid revision filename truncate).2.1 },
           some e))
    ∧ (Gist.File g b revision filename truncate = (none, none) →
        isExit128 (b.getFileContent g.User.Username g.Uuid revision filename truncate).2.2 = true)
    ∧ ((b.getFileContent g.User.Username g.Uuid revision filename truncate).2.2 = none →
        Gist.File g b revision filename truncate
          = (some { Filename := filename, OldFilename := "",
                    Content := (b.getFileContent g.User.Username g.Uuid revision filename truncate).1,
                    Truncated := (b.getFileContent g.User.Username g.Uuid revision filename truncate).2.1 },
             none)) := by
  refine ⟨?_, ?_, ?_⟩
  · intro e he h128
    unfold Gist.File
    rw [he]
    simp [h128]
  · intro h
    by_cases hc : isExit128
        (b.getFileContent g.User.Username g.Uuid revision filename truncate).2.2 = true
    · exact hc
    · exfalso
      unfold Gist.File at h
      rw [if_neg (by simpa using hc)] at h
      simp at h
  · intro h
    unfold Gist.File
    rw [h]
    simp [isExit128]

/-- C9 (witness): against a backend whose content subprocess fails with a
non-exit-status error, `Gist.File` returns a non-nil file together with that
error. -/
theorem C9_file_error_contract_witness :
    Gist.File ⟨⟨"u"⟩, "g"⟩ exBackendIOFail "HEAD" "a.txt" false
      = (some ⟨"a.txt", "", "", false⟩, some (GitError.otherError "io failure")) :=
  (C9_file_error_contract ⟨⟨"u"⟩, "g"⟩ exBackendIOFail "HEAD" "a.txt" false).1
    (GitError.otherError "io failure") rfl (by decide)

/-- C10 (counterexample): the claim concludes that no validated file entry
can name a path outside the working tree's top-level directory.  The
filename ".." contains neither '/' nor '\', is within the length cap, and so
passes validation — yet joined under the top-level directory it resolves to
the parent directory, outside the top level. -/
theorem C10_dotdot_passes_validation_counterexample :
    FileValid ⟨"..", "", "x", false⟩ ∧ ¬ ResolvesInside [['t'], ['c']] ".." := by
  constructor
  · decide
  · rintro ⟨t, ht⟩
    rw [show normalizePath ([['t'], ['c']] ++ splitSep (String.data "..")) = [['t']] from
      by decide] at ht
    have hlen := congrArg List.length ht
    simp only [List.length_append, List.length_cons, List.length_nil] at hlen
    omega

/-- C10 (amended): every File accepted through validation has Filename and
OldFilename containing neither '/' nor '\' and at most 50 characters, and a
non-empty Content; and every validated filename other than the special
component ".." resolves inside the working tree's top-level directory — but
".." itself passes validation and names the parent directory. -/
theorem C10_amended_validated_names_stay_inside_unless_dotdot (f : File)
    (dir : List (List Char)) (hv : FileValid f) (hdir : normalizePath dir = dir)
    (hne : f.Filename ≠ "..") :
    (f.Filename.data.contains '/' = false ∧ f.Filename.data.contains '\\' = false
      ∧ f.Filename.data.length ≤ 50 ∧ f.OldFilename.data.length ≤ 50 ∧ f.Content ≠ "")
    ∧ ResolvesInside dir f.Filename := by
  obtain ⟨hs1, hs2, hl, ho1, ho2, hol, hc⟩ := hv
  refine ⟨⟨hs1, hs2, hl, hol, hc⟩, ?_⟩
  have hsplit : splitSep f.Filename.data = [f.Filename.data] := splitSep_no_sep _ hs1 hs2
  have key : normalizePath (dir ++ splitSep f.Filename.data) = normStep dir f.Filename.data := by
    rw [hsplit]
    unfold normalizePath
    rw [List.foldl_append]
    simp only [List.foldl_cons, List.foldl_nil]
    unfold normalizePath at hdir
    rw [hdir]
  unfold ResolvesInside
  rw [key]
  unfold normStep
  by_cases h1 : f.Filename.data = [] ∨ f.Filename.data = ['.']
  · rw [if_pos h1]
    exact ⟨[], List.append_nil dir⟩
  · rw [if_neg h1]
    have h2 : ¬ f.Filename.data = ['.', '.'] := by
      intro hx
      apply hne
      calc f.Filename = String.mk f.Filename.data := rfl
        _ = String.mk ['.', '.'] := by rw [hx]
        _ = ".." := rfl
    rw [if_neg h2]
    exact ⟨[f.Filename.data], rfl⟩

/-- C10 (witness for the amended theorem): the validated filename "a.txt" is
separator-free and resolves inside the top-level directory. -/
theorem C10_amended_witness :
    (String.data "a.txt").contains '/' = false ∧ ResolvesInside [['t']] "a.txt" := by
  have h := C10_amended_validated_names_stay_inside_unless_dotdot ⟨"a.txt", "", "x", false⟩
    [['t']] (by decide) (by decide) (by decide)
  exact ⟨h.1.1, h.2⟩

end Opengist
